import Mathlib

/-!
Verification development for the refyne-sdk-ts request pipeline.

The TypeScript sources are shallowly embedded: each Lean definition mirrors
one exported function of the SDK (cache-control parsing, the in-memory
cache, cache-key generation, the retrying fetch wrapper, backoff
computation, and the API-version compatibility check).  JavaScript number
semantics that matter are made explicit: `parseInt` returning `NaN` is
modelled with `Option Int` (`none` = `NaN`), 32-bit wrap-around in the
string hash is modelled with explicit modulus, and JS truthiness of the
empty string and of `0` is spelled out at each use site.
-/

namespace Refyne

/-! ## JavaScript primitive helpers -/

/-- Whitespace characters recognised by JS `trim` / `parseInt`. -/
def isJsWhitespace (c : Char) : Bool :=
  c = ' ' ∨ c = '\t' ∨ c = '\n' ∨ c = '\r' ∨ c.toNat = 11 ∨ c.toNat = 12 ∨
    c.toNat = 160 ∨ c.toNat = 0xFEFF

/-- Numeric value of a list of decimal digit characters. -/
def digitsToNat (l : List Char) : Nat :=
  l.foldl (fun a c => a * 10 + (c.toNat - 48)) 0

/-- JS `parseInt(s, 10)` on a list of characters: skip leading whitespace,
read an optional sign and then a maximal run of decimal digits; `none`
models the `NaN` result produced when no digit is found. -/
def jsParseIntChars (l : List Char) : Option Int :=
  let l1 := l.dropWhile isJsWhitespace
  let signAndRest : Int × List Char :=
    match l1 with
    | '-' :: r => (-1, r)
    | '+' :: r => (1, r)
    | _ => (1, l1)
  let ds := signAndRest.2.takeWhile (·.isDigit)
  if ds = [] then none
  else some (signAndRest.1 * (digitsToNat ds : Int))

/-- JS `parseInt(s, 10)` on a string. -/
def jsParseInt (s : String) : Option Int :=
  jsParseIntChars s.data

/-- ASCII lower-casing of one character, as JS `toLowerCase` acts on the
ASCII range used by HTTP headers. -/
def charToLower (c : Char) : Char :=
  if 'A' ≤ c ∧ c ≤ 'Z' then Char.ofNat (c.toNat + 32) else c

/-- ASCII upper-casing of one character, as JS `toUpperCase` acts on the
ASCII range used by HTTP methods. -/
def charToUpper (c : Char) : Char :=
  if 'a' ≤ c ∧ c ≤ 'z' then Char.ofNat (c.toNat - 32) else c

/-- JS `toUpperCase` on a string (ASCII range). -/
def jsToUpperCase (s : String) : String :=
  String.mk (s.data.map charToUpper)

/-- Split a character list at every occurrence of `sep`, JS `split`. -/
def splitOnChar (sep : Char) : List Char → List (List Char)
  | [] => [[]]
  | c :: cs =>
    match splitOnChar sep cs with
    | [] => [[]]
    | t :: ts => if c = sep then [] :: t :: ts else (c :: t) :: ts

/-- JS `trim`: drop whitespace from both ends. -/
def trimChars (l : List Char) : List Char :=
  ((l.dropWhile isJsWhitespace).reverse.dropWhile isJsWhitespace).reverse

/-- Wrap an integer to the signed 32-bit range, the effect of JS bitwise
operations such as `x & x` and `x << 5`. -/
def jsToInt32 (n : Int) : Int :=
  (n + 2 ^ 31) % 2 ^ 32 - 2 ^ 31

/-- UTF-16 code units of one character, as JS `charCodeAt` enumerates. -/
def utf16Units (c : Char) : List Nat :=
  if c.toNat < 0x10000 then [c.toNat]
  else [0xD800 + (c.toNat - 0x10000) / 0x400, 0xDC00 + (c.toNat - 0x10000) % 0x400]

/-- The digit used by JS `Number.prototype.toString(36)`. -/
def digitChar36 (d : Nat) : Char :=
  if d < 10 then Char.ofNat (48 + d) else Char.ofNat (87 + d)

/-- Fuel-driven base-36 digit expansion (most significant first). -/
def toBase36Aux : Nat → Nat → List Char → List Char
  | 0, _, acc => acc
  | fuel + 1, n, acc =>
    if n < 36 then digitChar36 n :: acc
    else toBase36Aux fuel (n / 36) (digitChar36 (n % 36) :: acc)

/-- JS `n.toString(36)` for a non-negative integer. -/
def toBase36 (n : Nat) : String :=
  String.mk (toBase36Aux (n + 1) n [])

end Refyne

namespace Refyne

/-! ## cache.ts: Cache-Control parsing -/

/-- Model of the `CacheControlDirectives` interface: optional numeric
directives are `Option Int`, boolean directives default to `false`
(absent and `undefined` are observationally what `false` is to the
truthiness tests the SDK performs on them). -/
structure CacheControlDirectives where
  maxAge : Option Int := none
  noStore : Bool := false
  noCache : Bool := false
  «private» : Bool := false
  staleWhileRevalidate : Option Int := none
deriving DecidableEq, Repr

/-- One iteration of the token loop in `parseCacheControl`. -/
def applyCacheDirective (d : CacheControlDirectives) (part : List Char) :
    CacheControlDirectives :=
  if part = "no-store".data then { d with noStore := true }
  else if part = "no-cache".data then { d with noCache := true }
  else if part = "private".data then { d with «private» := true }
  else if "max-age=".data.isPrefixOf part then
    match jsParseIntChars (part.drop 8) with
    | some v => { d with maxAge := some v }
    | none => d
  else if "stale-while-revalidate=".data.isPrefixOf part then
    match jsParseIntChars (part.drop 23) with
    | some v => { d with staleWhileRevalidate := some v }
    | none => d
  else d

/-- `parseCacheControl(header)`: falsy header (null or empty) yields `{}`;
otherwise lower-case, split on commas, trim each token and fold the
directive recogniser over the tokens. -/
def parseCacheControl (header : Option String) : CacheControlDirectives :=
  match header with
  | none => {}
  | some s =>
    if s.data = [] then {}
    else
      (((splitOnChar ',' (s.data.map charToLower)).map trimChars).foldl
        applyCacheDirective {})

/-! ## cache.ts: cache keys and identity hashing -/

/-- `generateCacheKey(method, url, authHash?)`: join `METHOD`, url and, when
the hash is truthy (present and non-empty), the hash, with `:`. -/
def generateCacheKey (method url : String) (authHash : Option String) : String :=
  jsToUpperCase method ++ ":" ++ url ++
    (match authHash with
     | some h => if h = "" then "" else ":" ++ h
     | none => "")

/-- One step of the `hashString` loop:
`hash = ((hash << 5) - hash) + char; hash = hash & hash`. -/
def hashStep (h : Int) (c : Nat) : Int :=
  jsToInt32 (jsToInt32 (h * 32) - h + (c : Int))

/-- `hashString(str)`: fold the 31-style hash over the UTF-16 code units,
then `Math.abs(hash).toString(36)`. -/
def hashString (s : String) : String :=
  toBase36 (((s.data.map utf16Units).flatten.foldl hashStep 0).natAbs)

/-- The cache key the fetch wrapper derives for a caller credential: the
credential is hashed with `hashString` and passed to `generateCacheKey`. -/
def cacheKeyForCredential (method url credential : String) : String :=
  generateCacheKey method url (some (hashString credential))

/-! ## cache.ts: the in-memory cache -/

/-- Model of a `CacheEntry`: the opaque payload is a natural number, the
expiry an epoch-millisecond integer. -/
structure CacheEntry where
  value : Nat
  expiresAt : Int
  cacheControl : CacheControlDirectives
deriving DecidableEq, Repr

/-- The backing `Map<string, CacheEntry>` in JS insertion order. -/
abbrev Store := List (String × CacheEntry)

/-- JS truthiness of an optional number: falsy when absent (`undefined`)
or zero. -/
def jsTruthyOptInt : Option Int → Bool
  | none => false
  | some w => decide (w ≠ 0)

/-- JS `Map.get`. -/
def mapGet (m : Store) (k : String) : Option CacheEntry :=
  (m.find? (fun p => decide (p.1 = k))).map (·.2)

/-- JS `Map.set`: update in place when the key is present (keeping its
insertion position), otherwise append. -/
def mapSet (m : Store) (k : String) (v : CacheEntry) : Store :=
  if m.any (fun p => decide (p.1 = k)) then
    m.map (fun p => if p.1 = k then (k, v) else p)
  else m ++ [(k, v)]

/-- JS `Map.delete`: remove the entry for the key, if any. -/
def mapDelete (m : Store) (k : String) : Store :=
  m.eraseP (fun p => decide (p.1 = k))

/-- `MemoryCache.get(key)`: miss on an absent key; on a present entry with
`expiresAt < now`, serve it when `staleWhileRevalidate` is truthy (present
and non-zero) and `now` is before the stale deadline, otherwise delete the
entry and miss; unexpired entries are returned unchanged.  The returned
store reflects the lazy expiry deletion. -/
def MemoryCache.get (m : Store) (k : String) (now : Int) :
    Option CacheEntry × Store :=
  match mapGet m k with
  | none => (none, m)
  | some entry =>
    if entry.expiresAt < now then
      if jsTruthyOptInt entry.cacheControl.staleWhileRevalidate ∧
          now < entry.expiresAt +
            (entry.cacheControl.staleWhileRevalidate.getD 0) * 1000 then
        (some entry, m)
      else
        (none, mapDelete m k)
    else
      (some entry, m)

/-- `MemoryCache.set(key, entry)`: no-op under `no-store`; when
`size >= maxEntries`, delete the oldest key first — but only when that key
is truthy, i.e. present and not the empty string — then insert. -/
def MemoryCache.set (maxEntries : Nat) (m : Store) (k : String)
    (entry : CacheEntry) : Store :=
  if entry.cacheControl.noStore then m
  else
    let evicted :=
      if maxEntries ≤ m.length then
        match m.head? with
        | some p => if p.1 = "" then m else mapDelete m p.1
        | none => m
      else m
    mapSet evicted k entry

/-- `createCacheEntry(value, header)` at clock reading `now`: refuse under
`no-store` or a missing `max-age`, otherwise expire `maxAge` seconds from
now. -/
def createCacheEntry (value : Nat) (header : Option String) (now : Int) :
    Option CacheEntry :=
  let cc := parseCacheControl header
  if cc.noStore then none
  else
    match cc.maxAge with
    | some a => some ⟨value, now + a * 1000, cc⟩
    | none => none

/-- One operation against a `MemoryCache` instance. -/
inductive CacheOp where
  | get (k : String) (now : Int)
  | set (k : String) (entry : CacheEntry)
  | del (k : String)
  | clear
deriving DecidableEq, Repr

/-- Apply one operation to the backing store of a cache with the given
capacity (`clear` empties the map, `delete` is `Map.delete`). -/
def applyCacheOp (maxEntries : Nat) (m : Store) : CacheOp → Store
  | .get k now => (MemoryCache.get m k now).2
  | .set k entry => MemoryCache.set maxEntries m k entry
  | .del k => mapDelete m k
  | .clear => []

/-- The store reached from an empty cache after a sequence of operations. -/
def runCacheOps (maxEntries : Nat) (ops : List CacheOp) : Store :=
  ops.foldl (applyCacheOp maxEntries) []

end Refyne

namespace Refyne

/-! ## The retrying fetch wrapper (`createFetchWithRetry`) -/

/-- `Retry-After` seconds as the wrapper computes them:
`parseInt(headers.get('Retry-After') || '1', 10)`.  A missing or empty
(falsy) header falls back to the literal `'1'`; a present header is given
to `parseInt`, whose `NaN` result is `none`. -/
def retryAfterSeconds (header : Option String) : Option Int :=
  match header with
  | none => some 1
  | some s => if s = "" then some 1 else jsParseInt s

/-- The millisecond delay the wrapper passes to `sleep` on a 429:
`retryAfter * 1000`, with `NaN` propagating. -/
def retryAfterDelayMs (header : Option String) : Option Int :=
  (retryAfterSeconds header).map (· * 1000)

/-- Milliseconds actually slept by `setTimeout` for a given JS delay value:
`NaN` and negative delays are clamped to `0`. -/
def sleptMs : Option Int → Int
  | none => 0
  | some v => max v 0

/-- Outcome of one underlying `fetch` attempt as the wrapper observes it:
an HTTP response (status plus `Retry-After` header), an abort fired by the
per-attempt timeout, or a thrown error that `isRetryableError` classifies
by the given flag. -/
inductive AttemptOutcome where
  | resp (status : Nat) (retryAfter : Option String)
  | abortTimeout
  | netErr (retryable : Bool)
deriving DecidableEq, Repr

/-- Result of `fetchWithRetry` as callers observe it: a returned response,
a thrown `TimeoutError`, a thrown `NetworkError`, or the unreachable
fall-through throw after the loop. -/
inductive FetchResult where
  | response (status : Nat)
  | timeoutError
  | networkError
  | internalFailure
deriving DecidableEq, Repr

/-- A sleep performed between attempts: either the verbatim rate-limit
delay (with `none` modelling `NaN`) or a jittered backoff delay. -/
inductive SleepEv where
  | retrySleep (delayMs : Option Int)
  | backoffSleep (delayMs : Int)
deriving DecidableEq, Repr

/-- The `while (attempt <= maxRetries)` loop of `fetchWithRetry`.  `fuel`
counts the remaining iterations the loop condition admits (initially
`maxRetries + 1` with `attempt = 0`); the body increments `attempt`,
consults the outcome of that attempt, and either sleeps and continues,
returns the response, or throws.  `backoff` abstracts the jittered delay
drawn for attempt `a`. -/
def fwrLoop (maxRetries : Nat) (backoff : Nat → Int)
    (outcomes : Nat → AttemptOutcome) : Nat → Nat → FetchResult × List SleepEv
  | _, 0 => (.internalFailure, [])
  | attempt, fuel + 1 =>
    let a := attempt + 1
    match outcomes a with
    | .resp status retryAfter =>
      if status = 429 ∧ a ≤ maxRetries then
        let rest := fwrLoop maxRetries backoff outcomes a fuel
        (rest.1, .retrySleep (retryAfterDelayMs retryAfter) :: rest.2)
      else if 500 ≤ status ∧ a ≤ maxRetries then
        let rest := fwrLoop maxRetries backoff outcomes a fuel
        (rest.1, .backoffSleep (backoff a) :: rest.2)
      else (.response status, [])
    | .abortTimeout => (.timeoutError, [])
    | .netErr retryable =>
      if retryable ∧ a ≤ maxRetries then
        let rest := fwrLoop maxRetries backoff outcomes a fuel
        (rest.1, .backoffSleep (backoff a) :: rest.2)
      else (.networkError, [])

/-- `fetchWithRetry` for a non-cached request: run the attempt loop from
`attempt = 0` with its `maxRetries + 1` admissible iterations, returning
the observable result and the chronological list of sleeps. -/
def fetchWithRetry (maxRetries : Nat) (backoff : Nat → Int)
    (outcomes : Nat → AttemptOutcome) : FetchResult × List SleepEv :=
  fwrLoop maxRetries backoff outcomes 0 (maxRetries + 1)

/-- `calculateBackoffWithJitter(attempt, baseMs, maxMs)` with the random
sample `r` (drawn from `[0,1)`) made explicit:
`floor(min(2^(attempt-1) * baseMs, maxMs) * (1 + r/4))`. -/
def calculateBackoffWithJitter (attempt : Nat) (baseMs maxMs : Int)
    (r : ℚ) : Int :=
  let exponentialDelay : Int := 2 ^ (attempt - 1) * baseMs
  let cappedDelay : Int := min exponentialDelay maxMs
  ⌊(cappedDelay : ℚ) + r * (1 / 4) * (cappedDelay : ℚ)⌋

/-- The non-jittered component of the backoff delay. -/
def nonJitteredDelay (attempt : Nat) (baseMs maxMs : Int) : Int :=
  min (2 ^ (attempt - 1) * baseMs) maxMs

end Refyne

namespace Refyne

/-! ## version.ts: semver parsing and the compatibility check -/

/-- Parsed version components, the result shape of `parseVersion`. -/
structure VersionParts where
  major : Nat
  minor : Nat
  patch : Nat
  prerelease : Option String := none
deriving DecidableEq, Repr

/-- Matching of `/^(\d+)\.(\d+)\.(\d+)(?:-(.+))?$/` against the character
list: three non-empty digit runs separated by dots, optionally followed by
`-` and a non-empty prerelease that contains no newline (`.` does not
match newlines). -/
def matchSemver (l : List Char) : Option VersionParts :=
  let s1 := l.span (·.isDigit)
  if s1.1 = [] then none
  else
    match s1.2 with
    | '.' :: r2 =>
      let s2 := r2.span (·.isDigit)
      if s2.1 = [] then none
      else
        match s2.2 with
        | '.' :: r4 =>
          let s3 := r4.span (·.isDigit)
          if s3.1 = [] then none
          else
            match s3.2 with
            | [] => some ⟨digitsToNat s1.1, digitsToNat s2.1, digitsToNat s3.1, none⟩
            | '-' :: rest =>
              if rest ≠ [] ∧ rest.all (· ≠ '\n') then
                some ⟨digitsToNat s1.1, digitsToNat s2.1, digitsToNat s3.1,
                  some (String.mk rest)⟩
              else none
            | _ => none
        | _ => none
    | _ => none

/-- `parseVersion(version)`: regex match, with unparsable strings becoming
`(0, 0, 0)` with no prerelease. -/
def parseVersion (version : String) : VersionParts :=
  match matchSemver version.data with
  | some p => p
  | none => ⟨0, 0, 0, none⟩

/-- `compareVersions(a, b)`: lexicographic comparison of the numeric
triples only — the prerelease never participates. -/
def compareVersions (a b : String) : Int :=
  let va := parseVersion a
  let vb := parseVersion b
  if va.major ≠ vb.major then (if va.major < vb.major then -1 else 1)
  else if va.minor ≠ vb.minor then (if va.minor < vb.minor then -1 else 1)
  else if va.patch ≠ vb.patch then (if va.patch < vb.patch then -1 else 1)
  else 0

/-- Observable outcome of `checkAPIVersionCompatibility`: throw
`UnsupportedAPIVersionError`, log a newer-major warning, or do nothing. -/
inductive VersionCheckOutcome where
  | tooOld
  | warnNewer
  | ok
deriving DecidableEq, Repr

/-- Body of `checkAPIVersionCompatibility` with the two version constants
as parameters: too old when `compareVersions(api, min) < 0`, a warning
when the server major exceeds the max known major, otherwise nothing. -/
def checkAPIVersionCompatibilityWith (apiVersion minVersion maxKnown : String) :
    VersionCheckOutcome :=
  if compareVersions apiVersion minVersion < 0 then .tooOld
  else if (parseVersion maxKnown).major < (parseVersion apiVersion).major then
    .warnNewer
  else .ok

/-- Version constants of the checked-in SDK build. -/
def MIN_API_VERSION : String := "0.0.0"

/-- Maximum API version the SDK build was generated against. -/
def MAX_KNOWN_API_VERSION : String := "0.0.0"

/-- `checkAPIVersionCompatibility(apiVersion, logger)` of the SDK. -/
def checkAPIVersionCompatibility (apiVersion : String) : VersionCheckOutcome :=
  checkAPIVersionCompatibilityWith apiVersion MIN_API_VERSION MAX_KNOWN_API_VERSION

/-! ## client.ts: the response middleware and the one-shot version check -/

/-- What the middleware sees of one response: its status and the
`X-API-Version` header. -/
structure RespInfo where
  status : Nat
  apiVersionHeader : Option String
deriving DecidableEq, Repr

/-- `response.ok`: status in the 2xx range. -/
def respOk (r : RespInfo) : Bool :=
  decide (200 ≤ r.status ∧ r.status < 300)

/-- The version-check portion of `createErrorMiddleware`'s `onResponse`:
given the current `apiVersionChecked` flag, return the new flag and
whether `checkAPIVersionCompatibility` was invoked (it runs only when the
flag is unset, the response is ok and the header is present; the flag is
set on any first ok response). -/
def onResponseVersionCheck (checked : Bool) (r : RespInfo) : Bool × Bool :=
  if checked = false ∧ respOk r then (true, (r.apiVersionHeader).isSome)
  else (checked, false)

/-- Process a list of responses through the middleware, returning the
final flag and how many times the version check ran. -/
def processResponses (checked : Bool) : List RespInfo → Bool × Nat
  | [] => (checked, 0)
  | r :: rs =>
    let step := onResponseVersionCheck checked r
    let rest := processResponses step.1 rs
    (rest.1, (if step.2 then 1 else 0) + rest.2)

end Refyne

namespace Refyne

/-! ## Lemmas about the response middleware -/

/-- Once the one-shot flag is set, processing any further responses leaves
it set and never runs the version check. -/
theorem processResponses_flag_set (rs : List RespInfo) :
    processResponses true rs = (true, 0) := by
  induction rs with
  | nil => rfl
  | cons r rs ih =>
    simp [processResponses, onResponseVersionCheck, ih]

/-- Processing a concatenation threads the flag and adds the counts. -/
theorem processResponses_append (xs ys : List RespInfo) (c : Bool) :
    processResponses c (xs ++ ys) =
      ((processResponses (processResponses c xs).1 ys).1,
        (processResponses c xs).2 + (processResponses (processResponses c xs).1 ys).2) := by
  induction xs generalizing c with
  | nil => simp [processResponses]
  | cons x xs ih =>
    simp [processResponses, ih, Nat.add_assoc]

/-- An ok response always leaves the flag set, whatever it was before. -/
theorem onResponseVersionCheck_ok_sets_flag (c : Bool) (r : RespInfo)
    (h : respOk r = true) : (onResponseVersionCheck c r).1 = true := by
  cases c <;> simp [onResponseVersionCheck, h]

end Refyne

namespace Refyne

/-- C1: over any sequence of responses processed by a client instance, the
protocol-version compatibility check runs at most once, and once a
successful (2xx) response has been processed the check never runs on any
later response. -/
theorem version_check_at_most_once (rs pre post : List RespInfo) (r : RespInfo) :
    (processResponses false rs).2 ≤ 1 ∧
      (respOk r = true →
        (processResponses ((processResponses false (pre ++ [r])).1) post).2 = 0) := by
  constructor
  · induction rs with
    | nil => simp [processResponses]
    | cons x xs ih =>
      by_cases hx : respOk x = true
      · simp [processResponses, onResponseVersionCheck, hx,
          processResponses_flag_set]
        split <;> simp
      · simp only [Bool.not_eq_true] at hx
        simp [processResponses, onResponseVersionCheck, hx, ih]
  · intro hok
    have hflag : (processResponses false (pre ++ [r])).1 = true := by
      rw [processResponses_append]
      simp [processResponses]
      exact onResponseVersionCheck_ok_sets_flag _ _ hok
    rw [hflag, processResponses_flag_set]

/-- Witness for C1 at a concrete run: one successful response carrying a
version header, then a later successful response. -/
theorem version_check_at_most_once_witness :
    (processResponses false [⟨200, some "1.2.3"⟩, ⟨200, some "9.9.9"⟩]).2 ≤ 1 ∧
      (processResponses
        ((processResponses false ([] ++ [⟨200, some "1.2.3"⟩])).1)
        [⟨200, some "9.9.9"⟩]).2 = 0 :=
  ⟨(version_check_at_most_once [⟨200, some "1.2.3"⟩, ⟨200, some "9.9.9"⟩]
      [] [⟨200, some "9.9.9"⟩] ⟨200, some "1.2.3"⟩).1,
    (version_check_at_most_once [⟨200, some "1.2.3"⟩, ⟨200, some "9.9.9"⟩]
      [] [⟨200, some "9.9.9"⟩] ⟨200, some "1.2.3"⟩).2 (by decide)⟩

end Refyne

namespace Refyne

/-- C3: expiry of the per-attempt timeout fails the call immediately with
the Timeout error: from any loop state in which the current attempt
aborts on timeout — whatever happened on earlier attempts and whatever
`maxRetries` is — the call ends with `timeoutError`, performs no further
sleep and makes no further attempt; in particular a first-attempt timeout
ends the whole `fetchWithRetry` call this way. -/
theorem timeout_is_terminal (mr : Nat) (backoff : Nat → Int)
    (outcomes : Nat → AttemptOutcome) (attempt fuel : Nat) :
    (outcomes (attempt + 1) = .abortTimeout →
      fwrLoop mr backoff outcomes attempt (fuel + 1) = (.timeoutError, [])) ∧
    (outcomes 1 = .abortTimeout →
      fetchWithRetry mr backoff outcomes = (.timeoutError, [])) := by
  constructor
  · intro h
    simp [fwrLoop, h]
  · intro h
    cases mr with
    | zero => simp [fetchWithRetry, fwrLoop, h]
    | succ n => simp [fetchWithRetry, fwrLoop, h]

/-- Witness for C3: with three allowed retries, a timeout on the first
attempt ends the call at once. -/
theorem timeout_is_terminal_witness :
    fetchWithRetry 3 (fun _ => 0) (fun _ => .abortTimeout) = (.timeoutError, []) :=
  (timeout_is_terminal 3 (fun _ => 0) (fun _ => .abortTimeout) 0 3).2 rfl

end Refyne

namespace Refyne

/-- In a run whose every attempt yields HTTP 429 with header `h`, the loop
sleeps the verbatim `Retry-After` delay once per admissible retry and
finally returns the 429 response. -/
theorem fwrLoop_all_429 (mr : Nat) (backoff : Nat → Int) (h : Option String) :
    ∀ fuel attempt, attempt + fuel = mr →
      fwrLoop mr backoff (fun _ => .resp 429 h) attempt (fuel + 1) =
        (.response 429, List.replicate fuel (.retrySleep (retryAfterDelayMs h))) := by
  intro fuel
  induction fuel with
  | zero =>
    intro attempt hat
    simp [fwrLoop]
    omega
  | succ n ih =>
    intro attempt hat
    have hle : attempt + 1 ≤ mr := by omega
    have hrec := ih (attempt + 1) (by omega)
    conv_lhs => rw [fwrLoop]
    simp [hle, hrec, List.replicate_succ]

/-- C2 (amended): whenever an attempt returns HTTP 429 and the attempt
number is still within `maxRetries`, the executor sleeps the server's
`Retry-After` value verbatim as whole seconds with no jitter or scaling,
then retries; the 1-second default applies only when the header is
missing (or empty, hence falsy) — a present but non-numeric header makes
the computed delay `NaN`, so the sleep is effectively zero rather than
one second; and once the attempt number exceeds `maxRetries` the 429
response itself is returned to the caller (the middleware, not this loop,
turns it into the rate-limited error). -/
theorem rate_limited_retry_spec (mr : Nat) (backoff : Nat → Int)
    (h : Option String) (s : String) :
    fetchWithRetry mr backoff (fun _ => .resp 429 h) =
      (.response 429, List.replicate mr (.retrySleep (retryAfterDelayMs h))) ∧
    retryAfterDelayMs none = some 1000 ∧
    (jsParseInt s = none → s ≠ "" →
      retryAfterDelayMs (some s) = none ∧ sleptMs (retryAfterDelayMs (some s)) = 0) := by
  refine ⟨?_, rfl, ?_⟩
  · exact fwrLoop_all_429 mr backoff h mr 0 (by omega)
  · intro hnan hne
    simp [retryAfterDelayMs, retryAfterSeconds, hne, hnan, sleptMs]

/-- Witness for C2 (amended) at a concrete run: two allowed retries, a
`Retry-After: 2` header, and the non-numeric header value `abc`. -/
theorem rate_limited_retry_spec_witness :
    fetchWithRetry 2 (fun _ => 0) (fun _ => .resp 429 (some "2")) =
      (.response 429,
        List.replicate 2 (.retrySleep (retryAfterDelayMs (some "2")))) ∧
    retryAfterDelayMs (some "abc") = none ∧
    sleptMs (retryAfterDelayMs (some "abc")) = 0 :=
  ⟨(rate_limited_retry_spec 2 (fun _ => 0) (some "2") "abc").1,
    ((rate_limited_retry_spec 2 (fun _ => 0) (some "2") "abc").2.2
      (by decide) (by decide)).1,
    ((rate_limited_retry_spec 2 (fun _ => 0) (some "2") "abc").2.2
      (by decide) (by decide)).2⟩

/-- C2 counterexample: the claim's default does not cover an invalid
header.  With `maxRetries = 1` and a first attempt answered by HTTP 429
with `Retry-After: abc`, the executor's recorded sleep is the `NaN`
delay — effectively a zero-millisecond sleep — and not the claimed
1-second (1000 ms) default. -/
theorem rate_limited_invalid_header_counterexample :
    fetchWithRetry 1 (fun _ => 0)
        (fun a => if a = 1 then .resp 429 (some "abc") else .resp 200 none) =
      (.response 200, [.retrySleep none]) ∧
    retryAfterDelayMs (some "abc") ≠ some 1000 ∧
    sleptMs (retryAfterDelayMs (some "abc")) = 0 := by
  decide

end Refyne

namespace Refyne

/-- C4 counterexample: cache keys do not separate all callers.  The
distinct credentials `"Aa"` and `"BB"` collide under `hashString`
(both 31-style hashes equal 2112), so for the same method and URL the two
callers map to the identical cache key. -/
theorem cache_key_caller_collision :
    "Aa" ≠ "BB" ∧
      cacheKeyForCredential "GET" "https://api.refyne.uk/api/v1/usage" "Aa" =
        cacheKeyForCredential "GET" "https://api.refyne.uk/api/v1/usage" "BB" := by
  decide

/-- C4 (amended): cache-key generation is deterministic — identical
(method, url, credential) inputs always yield the identical key — and
distinct identity *hashes* never collide on the same key for the same
method and URL; but since `hashString` is not injective, two distinct
credentials can share a hash and hence a key (collisions degrade hit
rate only). -/
theorem cache_key_deterministic_and_hash_injective
    (method url cred h1 h2 : String) :
    cacheKeyForCredential method url cred = cacheKeyForCredential method url cred ∧
      (h1 ≠ "" → h2 ≠ "" → h1 ≠ h2 →
        generateCacheKey method url (some h1) ≠ generateCacheKey method url (some h2)) := by
  refine ⟨rfl, ?_⟩
  intro hne1 hne2 hne heq
  apply hne
  simp only [generateCacheKey, if_neg hne1, if_neg hne2] at heq
  have hdata := congrArg String.data heq
  simp only [String.data_append, List.append_assoc, List.append_cancel_left_eq] at hdata
  exact String.ext hdata

/-- Witness for C4 (amended) at concrete inputs: the distinct non-empty
hashes `"h1x"` and `"h2x"` give distinct keys. -/
theorem cache_key_deterministic_and_hash_injective_witness :
    cacheKeyForCredential "GET" "/u" "tok" = cacheKeyForCredential "GET" "/u" "tok" ∧
      generateCacheKey "GET" "/u" (some "h1x") ≠ generateCacheKey "GET" "/u" (some "h2x") :=
  ⟨(cache_key_deterministic_and_hash_injective "GET" "/u" "tok" "h1x" "h2x").1,
    (cache_key_deterministic_and_hash_injective "GET" "/u" "tok" "h1x" "h2x").2
      (by decide) (by decide) (by decide)⟩

end Refyne

namespace Refyne

/-- A canonical integer literal: an optional sign followed by one or more
decimal digits and nothing else.  Used to state what a malformed integer
is. -/
def isIntegerLiteral (s : String) : Bool :=
  let l :=
    match s.data with
    | '-' :: r => r
    | '+' :: r => r
    | l => l
  decide (l ≠ []) && l.all (·.isDigit)

/-- C5 counterexample: a `max-age` token whose value is a malformed
integer is not always ignored.  `"max-age=12abc"` carries the malformed
value `"12abc"`, yet `parseInt` reads its leading digits and the parser
records `maxAge = 12` instead of leaving the directives unchanged. -/
theorem parse_cache_control_malformed_not_ignored :
    isIntegerLiteral "12abc" = false ∧
      parseCacheControl (some "max-age=12abc") = { maxAge := some 12 } ∧
      parseCacheControl (some "max-age=12abc") ≠ parseCacheControl (some "") := by
  decide

/-- C5 (amended): `parseCacheControl` is total and deterministic; an
absent or empty header yields directives with no field set; a token that
is none of the recognised ones leaves the accumulated directives
unchanged, and a `max-age` or `stale-while-revalidate` token is ignored
exactly when JS `parseInt` yields `NaN` on its value (no leading
integer) — a value with a parsable integer prefix, such as `12abc`, is
accepted with that prefix's value. -/
theorem parse_cache_control_spec (d : CacheControlDirectives)
    (part : List Char) (s : String) :
    parseCacheControl none = {} ∧
      parseCacheControl (some "") = {} ∧
      parseCacheControl (some s) = parseCacheControl (some s) ∧
      (part ≠ "no-store".data → part ≠ "no-cache".data → part ≠ "private".data →
        ("max-age=".data.isPrefixOf part = true →
          jsParseIntChars (part.drop 8) = none) →
        ("stale-while-revalidate=".data.isPrefixOf part = true →
          jsParseIntChars (part.drop 23) = none) →
        applyCacheDirective d part = d) := by
  refine ⟨rfl, rfl, rfl, ?_⟩
  intro h1 h2 h3 h4 h5
  simp only [applyCacheDirective, if_neg h1, if_neg h2, if_neg h3]
  by_cases hp : "max-age=".data.isPrefixOf part = true
  · simp [hp, h4 hp]
  · simp only [Bool.not_eq_true] at hp
    by_cases hq : "stale-while-revalidate=".data.isPrefixOf part = true
    · simp [hp, hq, h5 hq]
    · simp only [Bool.not_eq_true] at hq
      simp [hp, hq]

/-- Witness for C5 (amended): the unknown token `must-revalidate` and the
valueless `max-age=` token leave concrete directives unchanged. -/
theorem parse_cache_control_spec_witness :
    parseCacheControl none = {} ∧
      applyCacheDirective { noCache := true } "must-revalidate".data =
        { noCache := true } ∧
      applyCacheDirective { noCache := true } "max-age=x".data =
        { noCache := true } :=
  ⟨(parse_cache_control_spec {} [] "x").1,
    (parse_cache_control_spec { noCache := true } "must-revalidate".data "x").2.2.2
      (by decide) (by decide) (by decide) (by decide) (by decide),
    (parse_cache_control_spec { noCache := true } "max-age=x".data "x").2.2.2
      (by decide) (by decide) (by decide) (by decide) (by decide)⟩

end Refyne

namespace Refyne

/-- C7: `MemoryCache.get` misses on an absent key; returns a present
unexpired entry unchanged; and returns a present expired entry unchanged
exactly when `staleWhileRevalidate` is set to some `w` with
`now < expiresAt + w * 1000`, deleting the entry and missing otherwise.
(With the entry expired, a `staleWhileRevalidate` of `0` — falsy in JS —
can never satisfy `now < expiresAt`, so the truthiness test and the
claimed condition agree.) -/
theorem memory_cache_get_spec (m : Store) (k : String) (now : Int) :
    (mapGet m k = none → MemoryCache.get m k now = (none, m)) ∧
      (∀ e, mapGet m k = some e → now ≤ e.expiresAt →
        MemoryCache.get m k now = (some e, m)) ∧
      (∀ e, mapGet m k = some e → e.expiresAt < now →
        ((∃ w, e.cacheControl.staleWhileRevalidate = some w ∧
            now < e.expiresAt + w * 1000) →
          MemoryCache.get m k now = (some e, m)) ∧
        (¬(∃ w, e.cacheControl.staleWhileRevalidate = some w ∧
            now < e.expiresAt + w * 1000) →
          MemoryCache.get m k now = (none, mapDelete m k))) := by
  refine ⟨?_, ?_, ?_⟩
  · intro h
    simp [MemoryCache.get, h]
  · intro e he hle
    simp [MemoryCache.get, he, not_lt.2 hle]
  · intro e he hlt
    constructor
    · rintro ⟨w, hw, hnow⟩
      have hw0 : w ≠ 0 := by
        intro h0
        rw [h0] at hnow
        omega
      simp [MemoryCache.get, he, hlt, hw, jsTruthyOptInt, hw0, hnow]
    · intro hne
      have hcond : ¬(jsTruthyOptInt e.cacheControl.staleWhileRevalidate = true ∧
          now < e.expiresAt +
            (e.cacheControl.staleWhileRevalidate.getD 0) * 1000) := by
        rintro ⟨ht, hn⟩
        rcases hsw : e.cacheControl.staleWhileRevalidate with _ | w
        · rw [hsw] at ht
          simp [jsTruthyOptInt] at ht
        · rw [hsw] at hn
          exact hne ⟨w, hsw, by simpa using hn⟩
      simp only [MemoryCache.get, he]
      rw [if_pos hlt, if_neg (by simpa using hcond)]

/-- Directives of the stale-while-revalidate demonstration entry. -/
def staleDemoDirectives : CacheControlDirectives :=
  { maxAge := some 0, staleWhileRevalidate := some 60 }

/-- Entry produced by `createCacheEntry` at time 0 for the header
`max-age=0, stale-while-revalidate=60`: it expires immediately. -/
def staleDemoEntry : CacheEntry :=
  ⟨7, 0, staleDemoDirectives⟩

/-- Witness for C7: the `max-age=0, stale-while-revalidate=60` entry is
still served 30 s after expiry and is a miss (with deletion) at 60 s. -/
theorem memory_cache_get_spec_witness :
    createCacheEntry 7 (some "max-age=0, stale-while-revalidate=60") 0 =
      some staleDemoEntry ∧
    MemoryCache.get [("k", staleDemoEntry)] "k" 30000 =
      (some staleDemoEntry, [("k", staleDemoEntry)]) ∧
    MemoryCache.get [("k", staleDemoEntry)] "k" 60000 =
      (none, mapDelete [("k", staleDemoEntry)] "k") :=
  ⟨by decide,
    ((memory_cache_get_spec [("k", staleDemoEntry)] "k" 30000).2.2 staleDemoEntry
      (by decide) (by decide)).1
      ⟨60, rfl, by decide⟩,
    ((memory_cache_get_spec [("k", staleDemoEntry)] "k" 60000).2.2 staleDemoEntry
      (by decide) (by decide)).2
      (by
        rintro ⟨w, hw, hn⟩
        simp [staleDemoEntry, staleDemoDirectives] at hw hn
        omega)⟩

end Refyne

namespace Refyne

/-- C10: `compareVersions` ignores prerelease identifiers — equal numeric
triples compare equal whatever the suffixes — and a server version such
as `1.0.0-beta` checked against a minimum supported `1.0.0` is never
rejected as too old, whatever the max-known version is. -/
theorem compare_versions_ignores_prerelease (a b maxKnown : String) :
    ((parseVersion a).major = (parseVersion b).major →
      (parseVersion a).minor = (parseVersion b).minor →
      (parseVersion a).patch = (parseVersion b).patch →
      compareVersions a b = 0) ∧
    checkAPIVersionCompatibilityWith "1.0.0-beta" "1.0.0" maxKnown ≠ .tooOld := by
  constructor
  · intro h1 h2 h3
    simp [compareVersions, h1, h2, h3]
  · have hcmp : compareVersions "1.0.0-beta" "1.0.0" = 0 := by decide
    simp only [checkAPIVersionCompatibilityWith, hcmp]
    norm_num
    split <;> simp

/-- Witness for C10: `2.3.4-rc.1` compares equal to `2.3.4`, and
`1.0.0-beta` passes the check against minimum `1.0.0` with the SDK's
max-known constant. -/
theorem compare_versions_ignores_prerelease_witness :
    compareVersions "2.3.4-rc.1" "2.3.4" = 0 ∧
      checkAPIVersionCompatibilityWith "1.0.0-beta" "1.0.0" MAX_KNOWN_API_VERSION ≠
        .tooOld :=
  ⟨(compare_versions_ignores_prerelease "2.3.4-rc.1" "2.3.4" "0.0.0").1
      (by decide) (by decide) (by decide),
    (compare_versions_ignores_prerelease "2.3.4-rc.1" "2.3.4"
      MAX_KNOWN_API_VERSION).2⟩

end Refyne

namespace Refyne

/-- The backoff delay decomposes as its non-jittered component plus the
floor of the jitter term. -/
theorem calculateBackoffWithJitter_eq (a : Nat) (base cap : Int) (r : ℚ) :
    calculateBackoffWithJitter a base cap r =
      nonJitteredDelay a base cap +
        ⌊r * (1 / 4) * (nonJitteredDelay a base cap : ℚ)⌋ := by
  simp only [calculateBackoffWithJitter, nonJitteredDelay]
  rw [Int.floor_int_add]

/-- The non-jittered component is non-negative and capped. -/
theorem nonJitteredDelay_bounds (a : Nat) (base cap : Int)
    (hb : 0 ≤ base) (hc : 0 ≤ cap) :
    0 ≤ nonJitteredDelay a base cap ∧ nonJitteredDelay a base cap ≤ cap :=
  ⟨le_min (mul_nonneg (pow_nonneg (by norm_num) _) hb) hc, min_le_right _ _⟩

/-- C8: for non-negative integer `baseMs`/`capMs` and any jitter sample
`r` drawn from `[0,1)`, the non-jittered backoff component
`min(2^(attempt-1)*baseMs, capMs)` is non-decreasing in the attempt
number, the full returned delay never exceeds `capMs * 1.25`, and (when
the non-jittered component is positive) the returned delay equals that
component plus an integer jitter in `[0, 0.25 * component)`. -/
theorem backoff_delay_spec (base cap : Int) (hb : 0 ≤ base) (hc : 0 ≤ cap) :
    (∀ a b : Nat, a ≤ b →
      nonJitteredDelay a base cap ≤ nonJitteredDelay b base cap) ∧
    (∀ (a : Nat) (r : ℚ), 0 ≤ r → r < 1 →
      (calculateBackoffWithJitter a base cap r : ℚ) ≤ (5 / 4) * cap) ∧
    (∀ (a : Nat) (r : ℚ), 0 ≤ r → r < 1 → 0 < nonJitteredDelay a base cap →
      ∃ j : Int, 0 ≤ j ∧ (j : ℚ) < (1 / 4) * (nonJitteredDelay a base cap : ℚ) ∧
        calculateBackoffWithJitter a base cap r =
          nonJitteredDelay a base cap + j) := by
  refine ⟨?_, ?_, ?_⟩
  · intro a b hab
    have hpow : (2 : Int) ^ (a - 1) ≤ 2 ^ (b - 1) :=
      pow_le_pow_right₀ (by norm_num) (Nat.sub_le_sub_right hab 1)
    exact min_le_min (mul_le_mul_of_nonneg_right hpow hb) le_rfl
  · intro a r hr0 hr1
    obtain ⟨h0c, hccap⟩ := nonJitteredDelay_bounds a base cap hb hc
    set c := nonJitteredDelay a base cap with hcdef
    have h0cQ : (0 : ℚ) ≤ (c : ℚ) := by exact_mod_cast h0c
    have hfl : (⌊r * (1 / 4) * (c : ℚ)⌋ : ℚ) ≤ r * (1 / 4) * (c : ℚ) :=
      Int.floor_le _
    have hj : r * (1 / 4) * (c : ℚ) ≤ (1 / 4) * (c : ℚ) := by
      have : r * (1 / 4) ≤ 1 / 4 := by nlinarith
      exact mul_le_mul_of_nonneg_right this h0cQ
    have hcapQ : (c : ℚ) ≤ (cap : ℚ) := by exact_mod_cast hccap
    rw [calculateBackoffWithJitter_eq]
    push_cast
    linarith
  · intro a r hr0 hr1 hpos
    obtain ⟨h0c, _⟩ := nonJitteredDelay_bounds a base cap hb hc
    set c := nonJitteredDelay a base cap with hcdef
    have hposQ : (0 : ℚ) < (c : ℚ) := by exact_mod_cast hpos
    refine ⟨⌊r * (1 / 4) * (c : ℚ)⌋, ?_, ?_, calculateBackoffWithJitter_eq a base cap r⟩
    · exact Int.floor_nonneg.2 (mul_nonneg (mul_nonneg hr0 (by norm_num)) hposQ.le)
    · have hfl : (⌊r * (1 / 4) * (c : ℚ)⌋ : ℚ) ≤ r * (1 / 4) * (c : ℚ) :=
        Int.floor_le _
      have hlt : r * (1 / 4) * (c : ℚ) < (1 / 4) * (c : ℚ) := by
        have h14 : r * (1 / 4) < 1 / 4 := by nlinarith
        exact mul_lt_mul_of_pos_right h14 hposQ
      linarith

/-- Witness for C8 at the SDK defaults `baseMs = 1000`, `capMs = 30000`,
jitter sample `1/2`: attempts 1 and 2 are ordered, the delay at attempt 1
is within the `1.25 * cap` bound, and it decomposes into `1000` plus a
jitter below `250`. -/
theorem backoff_delay_spec_witness :
    nonJitteredDelay 1 1000 30000 ≤ nonJitteredDelay 2 1000 30000 ∧
      (calculateBackoffWithJitter 1 1000 30000 (1 / 2) : ℚ) ≤ (5 / 4) * 30000 ∧
      ∃ j : Int, 0 ≤ j ∧ (j : ℚ) < (1 / 4) * (nonJitteredDelay 1 1000 30000 : ℚ) ∧
        calculateBackoffWithJitter 1 1000 30000 (1 / 2) =
          nonJitteredDelay 1 1000 30000 + j :=
  ⟨(backoff_delay_spec 1000 30000 (by norm_num) (by norm_num)).1 1 2 (by norm_num),
    (backoff_delay_spec 1000 30000 (by norm_num) (by norm_num)).2.1 1 (1 / 2)
      (by norm_num) (by norm_num),
    (backoff_delay_spec 1000 30000 (by norm_num) (by norm_num)).2.2 1 (1 / 2)
      (by norm_num) (by norm_num) (by decide)⟩

end Refyne

namespace Refyne

/-! ## Lemmas about the backing map and eviction -/

/-- Setting a key absent from the map appends the new pair. -/
theorem mapSet_fresh (m : Store) (k : String) (v : CacheEntry)
    (h : ∀ p ∈ m, p.1 ≠ k) : mapSet m k v = m ++ [(k, v)] := by
  have hany : m.any (fun p => decide (p.1 = k)) = false := by
    simp only [List.any_eq_false, decide_eq_true_eq]
    exact h
  simp [mapSet, hany]

/-- Deleting the key of the head pair drops exactly the head. -/
theorem mapDelete_head (k : String) (e : CacheEntry) (t : Store) :
    mapDelete ((k, e) :: t) k = t := by
  simp [mapDelete, List.eraseP_cons_of_pos]

/-- A `set` on a store strictly below capacity with a fresh key appends. -/
theorem memoryCacheSet_fresh_below_capacity (C : Nat) (m : Store)
    (p : String × CacheEntry) (hcap : m.length < C)
    (hstore : ¬p.2.cacheControl.noStore = true) (hfresh : ∀ q ∈ m, q.1 ≠ p.1) :
    MemoryCache.set C m p.1 p.2 = m ++ [p] := by
  rw [MemoryCache.set, if_neg hstore]
  simp only [not_le.2 hcap, if_neg (by omega : ¬C ≤ m.length)]
  exact mapSet_fresh m p.1 p.2 hfresh

/-- Folding fresh, pairwise-distinct, storable insertions into a store
with enough spare capacity appends them all in order with no eviction. -/
theorem foldl_set_fills (C : Nat) :
    ∀ (ops : List (String × CacheEntry)) (m : Store),
      m.length + ops.length ≤ C →
      (∀ p ∈ ops, ¬p.2.cacheControl.noStore = true) →
      (∀ p ∈ ops, ∀ q ∈ m, q.1 ≠ p.1) →
      (ops.map Prod.fst).Nodup →
      ops.foldl (fun s q => MemoryCache.set C s q.1 q.2) m = m ++ ops := by
  intro ops
  induction ops with
  | nil => intro m _ _ _ _; simp
  | cons p ops ih =>
    intro m hcap hstore hfresh hnodup
    rw [List.map_cons, List.nodup_cons] at hnodup
    have hlt : m.length < C := by
      simp only [List.length_cons] at hcap
      omega
    have hstep : MemoryCache.set C m p.1 p.2 = m ++ [p] :=
      memoryCacheSet_fresh_below_capacity C m p hlt
        (hstore p (List.mem_cons_self p ops))
        (fun q hq => hfresh p (List.mem_cons_self p ops) q hq)
    have hheadfresh : ∀ r ∈ ops, p.1 ≠ r.1 := by
      intro r hr hpr
      exact hnodup.1 (hpr ▸ List.mem_map_of_mem Prod.fst hr)
    have hrec := ih (m ++ [p])
      (by
        simp only [List.length_append, List.length_cons, List.length_nil] at hcap ⊢
        omega)
      (fun q hq => hstore q (List.mem_cons_of_mem p hq))
      (by
        intro q hq r hr
        rcases List.mem_append.1 hr with hrm | hrp
        · exact hfresh q (List.mem_cons_of_mem p hq) r hrm
        · have hreq : r = p := by simpa using hrp
          subst hreq
          exact hheadfresh q hq)
      hnodup.2
    simp only [List.foldl_cons, hstep, hrec, List.append_assoc,
      List.singleton_append]

/-- C6 (amended): inserting `C + 1` distinct non-empty keys (storable,
non-`no-store` entries) in order into an empty store of capacity `C ≥ 1`
leaves exactly the last `C` of them, in order: the very first-inserted
key is the one evicted, oldest-inserted-first.  (The non-emptiness
restriction is forced by JS falsiness: an empty-string oldest key is
skipped by the eviction guard.) -/
theorem cache_eviction_oldest_first (C : Nat) (p : String × CacheEntry)
    (rest : List (String × CacheEntry)) (hC : 1 ≤ C) (hlen : rest.length = C)
    (hnodup : ((p :: rest).map Prod.fst).Nodup)
    (hkeys : ∀ q ∈ p :: rest, q.1 ≠ "")
    (hstore : ∀ q ∈ p :: rest, ¬q.2.cacheControl.noStore = true) :
    (p :: rest).foldl (fun s q => MemoryCache.set C s q.1 q.2) ([] : Store) =
      rest := by
  rcases List.eq_nil_or_concat rest with hnil | ⟨init, q, hq⟩
  · exact absurd (hnil ▸ hlen) (by simp; omega)
  · rw [List.concat_eq_append] at hq
    subst hq
    have hinitlen : init.length = C - 1 := by
      simp only [List.length_append, List.length_cons, List.length_nil] at hlen
      omega
    have hmap : (p :: (init ++ [q])).map Prod.fst =
        p.1 :: (init.map Prod.fst ++ [q.1]) := by simp
    rw [hmap, List.nodup_cons, List.nodup_append] at hnodup
    obtain ⟨hpnot, hinitnd, _, hdisj⟩ := hnodup
    have hqinit : ∀ r ∈ init, r.1 ≠ q.1 := by
      intro r hr hrq
      exact hdisj (List.mem_map_of_mem Prod.fst hr) (by simp [hrq])
    have hnodup_pinit : ((p :: init).map Prod.fst).Nodup := by
      rw [List.map_cons, List.nodup_cons]
      exact ⟨fun h => hpnot (List.mem_append_left _ h), hinitnd⟩
    have hsplit : (p :: (init ++ [q])).foldl
        (fun s r => MemoryCache.set C s r.1 r.2) ([] : Store) =
        MemoryCache.set C
          ((p :: init).foldl (fun s r => MemoryCache.set C s r.1 r.2) [])
          q.1 q.2 := by
      rw [show p :: (init ++ [q]) = (p :: init) ++ [q] by simp]
      rw [List.foldl_append]
      rfl
    have hfill : (p :: init).foldl
        (fun s r => MemoryCache.set C s r.1 r.2) ([] : Store) = p :: init := by
      have := foldl_set_fills C (p :: init) []
        (by simp only [List.length_nil, List.length_cons]; omega)
        (fun r hr => hstore r (by
          rcases List.mem_cons.1 hr with h | h
          · exact h ▸ List.mem_cons_self p _
          · exact List.mem_cons_of_mem p (List.mem_append_left _ h)))
        (by intro r _ s hs; exact absurd hs (List.not_mem_nil s))
        hnodup_pinit
      simpa using this
    rw [hsplit, hfill]
    have hatcap : C ≤ (p :: init).length := by
      simp only [List.length_cons]
      omega
    have hpne : p.1 ≠ "" := hkeys p (List.mem_cons_self p _)
    have hqstore : ¬q.2.cacheControl.noStore = true :=
      hstore q (List.mem_cons_of_mem p
        (List.mem_append_right _ (List.mem_singleton_self q)))
    rw [MemoryCache.set, if_neg hqstore]
    simp only [if_pos hatcap, List.head?_cons, if_neg hpne]
    have hdel : mapDelete (p :: init) p.1 = init := by
      rcases p with ⟨pk, pe⟩
      exact mapDelete_head pk pe init
    rw [hdel, mapSet_fresh init q.1 q.2 hqinit]

end Refyne

namespace Refyne

/-- A minimal storable entry (no directives set, expiry at epoch 0). -/
def plainEntry : CacheEntry :=
  ⟨0, 0, {}⟩

/-- C6 counterexample: with the empty string among the keys the claim
fails.  A capacity-1 store receiving the two distinct keys `""` and `"x"`
(storable entries) ends with two entries and the first-inserted key still
present, because the eviction guard treats the falsy oldest key `""` as
absent and skips eviction. -/
theorem cache_eviction_empty_key_counterexample :
    ([("", plainEntry), ("x", plainEntry)].foldl
        (fun s q => MemoryCache.set 1 s q.1 q.2) ([] : Store)).length = 2 ∧
      "" ∈ ([("", plainEntry), ("x", plainEntry)].foldl
        (fun s q => MemoryCache.set 1 s q.1 q.2) ([] : Store)).map Prod.fst := by
  decide

/-- Witness for C6 (amended): the capacity-3 store receiving k1,k2,k3,k4
in order ends with exactly k2,k3,k4 present, in insertion order. -/
theorem cache_eviction_oldest_first_witness :
    [("k1", plainEntry), ("k2", plainEntry), ("k3", plainEntry),
        ("k4", plainEntry)].foldl
      (fun s q => MemoryCache.set 3 s q.1 q.2) ([] : Store) =
      [("k2", plainEntry), ("k3", plainEntry), ("k4", plainEntry)] :=
  cache_eviction_oldest_first 3 ("k1", plainEntry)
    [("k2", plainEntry), ("k3", plainEntry), ("k4", plainEntry)]
    (by decide) (by decide) (by decide) (by decide) (by decide)

end Refyne

namespace Refyne

/-! ## Lemmas for the size invariant -/

/-- `Map.set` grows the map by at most one entry. -/
theorem length_mapSet_le (m : Store) (k : String) (v : CacheEntry) :
    (mapSet m k v).length ≤ m.length + 1 := by
  rw [mapSet]
  split
  · simp
  · simp

/-- Every element of `Map.set`'s result is the new pair or an old one. -/
theorem mem_mapSet (m : Store) (k : String) (v : CacheEntry)
    (p : String × CacheEntry) (hp : p ∈ mapSet m k v) :
    p = (k, v) ∨ p ∈ m := by
  rw [mapSet] at hp
  split at hp
  · rcases List.mem_map.1 hp with ⟨q, hq, hqp⟩
    by_cases hqk : q.1 = k
    · left
      rw [← hqp]
      simp [hqk]
    · right
      rw [← hqp]
      simp only [if_neg hqk]
      exact hq
  · rcases List.mem_append.1 hp with h | h
    · right; exact h
    · left; simpa using h

/-- The store returned by `MemoryCache.get` is the input store or the
input store with the key deleted. -/
theorem memoryCacheGet_snd (m : Store) (k : String) (now : Int) :
    (MemoryCache.get m k now).2 = m ∨
      (MemoryCache.get m k now).2 = mapDelete m k := by
  rw [MemoryCache.get]
  cases hg : mapGet m k
  · left; rfl
  · dsimp only
    split_ifs <;> simp

/-- `Map.delete` only removes entries. -/
theorem mapDelete_shrinks (m : Store) (k : String) :
    (mapDelete m k).length ≤ m.length ∧ ∀ p ∈ mapDelete m k, p ∈ m :=
  ⟨(List.eraseP_sublist m).length_le, fun _ hp => List.eraseP_subset _ hp⟩

/-- The non-emptiness side condition the amended invariant needs: `set`
operations must not use the empty-string key (any other operation
qualifies). -/
def setKeyNonempty : CacheOp → Bool
  | .set k _ => decide (k ≠ "")
  | _ => true

/-- One operation preserves the size bound together with the
all-keys-non-empty auxiliary invariant. -/
theorem applyCacheOp_preserves_inv (C : Nat) (m : Store) (op : CacheOp)
    (hC : 1 ≤ C) (hlen : m.length ≤ C) (hkeys : ∀ p ∈ m, p.1 ≠ "")
    (hop : setKeyNonempty op = true) :
    (applyCacheOp C m op).length ≤ C ∧
      ∀ p ∈ applyCacheOp C m op, p.1 ≠ "" := by
  cases op with
  | get k now =>
    rcases memoryCacheGet_snd m k now with h | h <;>
      simp only [applyCacheOp, h]
    · exact ⟨hlen, hkeys⟩
    · exact ⟨(mapDelete_shrinks m k).1.trans hlen,
        fun p hp => hkeys p ((mapDelete_shrinks m k).2 p hp)⟩
  | set k e =>
    have hk : k ≠ "" := by simpa [setKeyNonempty] using hop
    simp only [applyCacheOp]
    rw [MemoryCache.set]
    split
    · exact ⟨hlen, hkeys⟩
    · by_cases hfull : C ≤ m.length
      · rcases m with _ | ⟨hd, t⟩
        · simp at hfull
          omega
        · have hhd : hd.1 ≠ "" := hkeys hd (List.mem_cons_self hd t)
          have hdel : mapDelete (hd :: t) hd.1 = t := by
            rcases hd with ⟨hk0, he0⟩
            exact mapDelete_head hk0 he0 t
          simp only [if_pos hfull, List.head?_cons, if_neg hhd, hdel]
          refine ⟨?_, ?_⟩
          · have := length_mapSet_le t k e
            simp only [List.length_cons] at hlen hfull
            omega
          · intro p hp
            rcases mem_mapSet t k e p hp with h | h
            · rw [h]; exact hk
            · exact hkeys p (List.mem_cons_of_mem hd h)
      · simp only [if_neg hfull]
        refine ⟨?_, ?_⟩
        · have := length_mapSet_le m k e
          omega
        · intro p hp
          rcases mem_mapSet m k e p hp with h | h
          · rw [h]; exact hk
          · exact hkeys p h
  | del k =>
    simp only [applyCacheOp]
    exact ⟨(mapDelete_shrinks m k).1.trans hlen,
      fun p hp => hkeys p ((mapDelete_shrinks m k).2 p hp)⟩
  | clear =>
    simp [applyCacheOp]

/-- Folding operations over a store preserves both invariants. -/
theorem foldl_cacheOps_preserves_inv (C : Nat) (hC : 1 ≤ C) :
    ∀ (ops : List CacheOp) (m : Store), m.length ≤ C →
      (∀ p ∈ m, p.1 ≠ "") → (∀ op ∈ ops, setKeyNonempty op = true) →
      (ops.foldl (applyCacheOp C) m).length ≤ C ∧
        ∀ p ∈ ops.foldl (applyCacheOp C) m, p.1 ≠ "" := by
  intro ops
  induction ops with
  | nil => intro m h1 h2 _; exact ⟨h1, h2⟩
  | cons op ops ih =>
    intro m h1 h2 hops
    have hstep := applyCacheOp_preserves_inv C m op hC h1 h2
      (hops op (List.mem_cons_self op ops))
    exact ih (applyCacheOp C m op) hstep.1 hstep.2
      (fun o ho => hops o (List.mem_cons_of_mem op ho))

/-- C9 (amended): for every capacity `C ≥ 1` and every operation sequence
whose `set` operations use non-empty keys, the store reached from the
empty cache holds at most `C` entries — the bound is established
initially and preserved by every `get`, `set`, `delete` and `clear`.
(The restriction to non-empty keys is forced by the eviction guard's JS
falsiness check; see the counterexample.) -/
theorem memory_cache_size_invariant (C : Nat) (ops : List CacheOp)
    (hC : 1 ≤ C) (hops : ∀ op ∈ ops, setKeyNonempty op = true) :
    (runCacheOps C ops).length ≤ C :=
  (foldl_cacheOps_preserves_inv C hC ops [] (by simp)
    (by intro p hp; exact absurd hp (List.not_mem_nil p)) hops).1

/-- C9 counterexample: a capacity-1 cache that receives a `set` under the
empty-string key and then a `set` under `"x"` ends with two entries —
the size bound `size <= maxEntries` is violated because the falsy oldest
key suppresses eviction. -/
theorem memory_cache_size_overflow_counterexample :
    (runCacheOps 1 [.set "" plainEntry, .set "x" plainEntry]).length = 2 ∧
      ¬(runCacheOps 1 [.set "" plainEntry, .set "x" plainEntry]).length ≤ 1 := by
  decide

/-- Witness for C9 (amended) on a concrete mixed operation sequence at
capacity 2. -/
theorem memory_cache_size_invariant_witness :
    (runCacheOps 2 [.set "a" plainEntry, .set "b" plainEntry,
      .get "a" 5, .set "c" plainEntry, .del "b", .clear,
      .set "d" plainEntry]).length ≤ 2 :=
  memory_cache_size_invariant 2
    [.set "a" plainEntry, .set "b" plainEntry, .get "a" 5,
      .set "c" plainEntry, .del "b", .clear, .set "d" plainEntry]
    (by decide) (by decide)

end Refyne
